import Mathlib

/-!
Verification of the person-time stratification, incidence-rate and
age-standardisation arithmetic of the `epid_analysis` package.

Embedding conventions:
* Python floats are modelled as exact rationals (`ℚ`); a float `NaN` entry in a
  dataframe column is modelled as `Option.none`, and the distinguished
  `NaN` / `inf` results of a rate computation by the inductive `FloatRate`.
* A pandas `DataFrame` is modelled as a `List` of row structures; `merge` is an
  inner join (per left row, the matching right rows), `groupby(...).sum()` maps
  the deduplicated key list to per-key sums over the matching rows.
* Out-of-range list indexing (a Python `IndexError`) is modelled by `List.getD`
  with default `0`; all uses below stay in range.
-/

namespace EpidAnalysis

/-! ### epid_analysis/data/trial_datasets.py -/

/-- Embeds `years_in_age_bin` (trial_datasets.py lines 171-181): the number of
years a subject recruited at `age_at_recruitment` and censored at
`age_at_censoring` spends inside the half-open age bin
`[age_bin_edges[i], age_bin_edges[i+1])`. -/
def years_in_age_bin (age_at_recruitment age_at_censoring : ℚ)
    (age_bin_edges : List ℚ) (age_bin_index : ℕ) : ℚ :=
  let lower_edge := age_bin_edges.getD age_bin_index 0
  let upper_edge := age_bin_edges.getD (age_bin_index + 1) 0
  if age_at_censoring ≤ lower_edge ∨ upper_edge ≤ age_at_recruitment then 0
  else min age_at_censoring upper_edge - max age_at_recruitment lower_edge

/-- Embeds `years_by_age_bin` (trial_datasets.py lines 158-168): the per-bin
person-time contributions, one entry per consecutive pair of edges. -/
def years_by_age_bin (age_at_recruitment age_at_censoring : ℚ)
    (age_bin_edges : List ℚ) : List ℚ :=
  (List.range (age_bin_edges.length - 1)).map
    (years_in_age_bin age_at_recruitment age_at_censoring age_bin_edges)

/-- Clamp `x` into the observation window `[r, c]`; proof device for the
telescoping person-time sum. -/
def ageClamp (r c x : ℚ) : ℚ := max r (min c x)

lemma years_in_age_bin_eq_clamp (r c : ℚ) (edges : List ℚ) (i : ℕ)
    (hrc : r ≤ c) (hlohi : edges.getD i 0 ≤ edges.getD (i + 1) 0) :
    years_in_age_bin r c edges i =
      ageClamp r c (edges.getD (i + 1) 0) - ageClamp r c (edges.getD i 0) := by
  set lo := edges.getD i 0 with hlo
  set hi := edges.getD (i + 1) 0 with hhi
  simp only [years_in_age_bin, ageClamp, ← hlo, ← hhi]
  by_cases h1 : c ≤ lo
  · rw [if_pos (Or.inl h1), min_eq_left h1, min_eq_left (le_trans h1 hlohi),
      max_eq_right hrc]
    ring
  · by_cases h2 : hi ≤ r
    · rw [if_pos (Or.inr h2),
        max_eq_left (le_trans (min_le_right c hi) h2),
        max_eq_left (le_trans (min_le_right c lo) (le_trans hlohi h2))]
      ring
    · push_neg at h1 h2
      rw [if_neg (by push_neg; exact ⟨h1, h2⟩), min_eq_right h1.le,
        max_eq_right (le_min hrc h2.le)]

lemma sum_map_range (f : ℕ → ℚ) (n : ℕ) :
    ((List.range n).map f).sum = Finset.sum (Finset.range n) f := by
  induction n with
  | zero => simp
  | succ m ih =>
      rw [List.range_succ, List.map_append, List.sum_append,
        Finset.sum_range_succ, ih]
      simp

/-- Claim C1: for every subject with `recruitment_age ≤ censoring_age` and every
strictly ascending edge list whose bins tile an interval containing
`[recruitment_age, censoring_age)`, the per-bin contributions of
`years_by_age_bin` sum exactly to `censoring_age - recruitment_age`. -/
theorem years_by_age_bin_sum_eq (r c : ℚ) (edges : List ℚ)
    (hrc : r ≤ c) (hsort : edges.Chain' (· < ·))
    (hlen : 0 < edges.length)
    (hlow : edges.getD 0 0 ≤ r)
    (hhigh : c ≤ edges.getD (edges.length - 1) 0) :
    (years_by_age_bin r c edges).sum = c - r := by
  have hmono : ∀ i, i < edges.length - 1 →
      edges.getD i 0 ≤ edges.getD (i + 1) 0 := by
    intro i hi
    have h := List.chain'_iff_get.mp hsort i hi
    simp only [List.get_eq_getElem] at h
    rw [List.getD_eq_getElem edges 0 (by omega),
      List.getD_eq_getElem edges 0 (by omega)]
    exact le_of_lt h
  have hterm : ∀ i ∈ Finset.range (edges.length - 1),
      years_in_age_bin r c edges i =
        ageClamp r c (edges.getD (i + 1) 0) - ageClamp r c (edges.getD i 0) := by
    intro i hi
    exact years_in_age_bin_eq_clamp r c edges i hrc
      (hmono i (Finset.mem_range.mp hi))
  rw [years_by_age_bin, sum_map_range, Finset.sum_congr rfl hterm,
    Finset.sum_range_sub (fun i => ageClamp r c (edges.getD i 0))]
  have hC : ageClamp r c (edges.getD (edges.length - 1) 0) = c := by
    rw [ageClamp, min_eq_left hhigh, max_eq_right hrc]
  have hR : ageClamp r c (edges.getD 0 0) = r := by
    rw [ageClamp, min_eq_right (le_trans hlow hrc), max_eq_left hlow]
  rw [hC, hR]

/-- Witness instantiating the C1 theorem on a concrete subject and edge list. -/
theorem years_by_age_bin_sum_eq_w :
    ((2 : ℚ) ≤ 9 ∧ ([0, 10] : List ℚ).Chain' (· < ·) ∧
      0 < ([0, 10] : List ℚ).length ∧
      ([0, 10] : List ℚ).getD 0 0 ≤ 2 ∧
      (9 : ℚ) ≤ ([0, 10] : List ℚ).getD (([0, 10] : List ℚ).length - 1) 0) ∧
    (years_by_age_bin 2 9 [0, 10]).sum = 9 - 2 :=
  ⟨⟨by norm_num, by norm_num [List.chain'_pair], by norm_num, by norm_num,
      by norm_num⟩,
    years_by_age_bin_sum_eq 2 9 [0, 10] (by norm_num)
      (by norm_num [List.chain'_pair]) (by norm_num) (by norm_num)
      (by norm_num)⟩

/-- Claim C2: each bin taken from an ascending edge list contributes
`max 0 (min censoring hi - max recruitment lo)` person-years; in particular
`years_in_age_bin 60 65 [60,65] 0 = 5`, `years_in_age_bin 60 65 [70,75] 0 = 0`,
and a subject with `recruitment_age = censoring_age` contributes `0` to every
bin. -/
theorem years_in_age_bin_formula (r c : ℚ) (edges : List ℚ) (i : ℕ)
    (hrc : r ≤ c) (hsort : edges.Chain' (· < ·)) (hi : i + 1 < edges.length) :
    years_in_age_bin r c edges i =
      max 0 (min c (edges.getD (i + 1) 0) - max r (edges.getD i 0)) ∧
    years_in_age_bin 60 65 [60, 65] 0 = 5 ∧
    years_in_age_bin 60 65 [70, 75] 0 = 0 ∧
    (r = c → years_in_age_bin r c edges i = 0) := by
  have hlohi : edges.getD i 0 ≤ edges.getD (i + 1) 0 := by
    have h := List.chain'_iff_get.mp hsort i (by omega)
    simp only [List.get_eq_getElem] at h
    rw [List.getD_eq_getElem edges 0 (by omega),
      List.getD_eq_getElem edges 0 (by omega)]
    exact le_of_lt h
  refine ⟨?_, by norm_num [years_in_age_bin], by norm_num [years_in_age_bin], ?_⟩
  · set lo := edges.getD i 0 with hlo
    set hi2 := edges.getD (i + 1) 0 with hhi2
    simp only [years_in_age_bin, ← hlo, ← hhi2]
    by_cases h1 : c ≤ lo
    · rw [if_pos (Or.inl h1), eq_comm, max_eq_left]
      exact sub_nonpos.mpr (le_trans (min_le_left c hi2)
        (le_trans h1 (le_max_right r lo)))
    · by_cases h2 : hi2 ≤ r
      · rw [if_pos (Or.inr h2), eq_comm, max_eq_left]
        exact sub_nonpos.mpr (le_trans (min_le_right c hi2)
          (le_trans h2 (le_max_left r lo)))
      · push_neg at h1 h2
        rw [if_neg (by push_neg; exact ⟨h1, h2⟩), eq_comm, max_eq_right]
        exact sub_nonneg.mpr (max_le (le_min hrc h2.le) (le_min h1.le hlohi))
  · intro hreq
    subst hreq
    set lo := edges.getD i 0 with hlo
    set hi2 := edges.getD (i + 1) 0 with hhi2
    simp only [years_in_age_bin, ← hlo, ← hhi2]
    by_cases h1 : r ≤ lo
    · rw [if_pos (Or.inl h1)]
    · by_cases h2 : hi2 ≤ r
      · rw [if_pos (Or.inr h2)]
      · push_neg at h1 h2
        rw [if_neg (by push_neg; exact ⟨h1, h2⟩), min_eq_left h2.le,
          max_eq_left h1.le, sub_self]

/-- Witness instantiating the C2 theorem on a concrete bin. -/
theorem years_in_age_bin_formula_w :
    ((0 : ℚ) ≤ 1 ∧ ([0, 1] : List ℚ).Chain' (· < ·) ∧
      0 + 1 < ([0, 1] : List ℚ).length) ∧
    (years_in_age_bin 0 1 [0, 1] 0 =
        max 0 (min 1 (([0, 1] : List ℚ).getD (0 + 1) 0) -
          max 0 (([0, 1] : List ℚ).getD 0 0)) ∧
      years_in_age_bin 60 65 [60, 65] 0 = 5 ∧
      years_in_age_bin 60 65 [70, 75] 0 = 0 ∧
      ((0 : ℚ) = 1 → years_in_age_bin 0 1 [0, 1] 0 = 0)) :=
  ⟨⟨by norm_num, by norm_num [List.chain'_pair], by norm_num⟩,
    years_in_age_bin_formula 0 1 [0, 1] 0 (by norm_num)
      (by norm_num [List.chain'_pair]) (by norm_num)⟩

/-- Result of a float rate computation: pandas produces `NaN`, `+inf`, or a
finite value. -/
inductive FloatRate where
  | nan
  | inf
  | val (q : ℚ)
deriving DecidableEq

/-- A stratum row of `load_age_stratified_incidence_data` just before the
`yearly_rate` column is assigned (trial_datasets.py lines 100-111): columns
source, age_group, smoking_status, sex, person_years, histology, count. -/
structure StratumRow where
  source : String
  age_group : String
  smoking_status : String
  sex : String
  person_years : ℚ
  histology : String
  count : ℚ
deriving DecidableEq

/-- Embeds the per-row rate expression of the final `.assign` of
`load_age_stratified_incidence_data` (trial_datasets.py lines 139-148):
`count * rate_scale / person_years` when `person_years != 0`, else `NaN` when
`count == 0`, else `+inf`. -/
def yearly_rate (rate_scale : ℚ) (row : StratumRow) : FloatRate :=
  if row.person_years ≠ 0 then
    FloatRate.val (row.count * rate_scale / row.person_years)
  else if row.count = 0 then FloatRate.nan
  else FloatRate.inf

/-- Embeds the final `.assign(yearly_rate=...)` applied row-wise over the
stratified table (trial_datasets.py lines 139-148). -/
def assign_yearly_rate (rate_scale : ℚ) (rows : List StratumRow) :
    List (StratumRow × FloatRate) :=
  rows.map (fun row => (row, yearly_rate rate_scale row))

/-- Claim C3: every stratum row's `yearly_rate` follows the three-way policy:
`NaN` when `person_years = 0` and `count = 0`; `+inf` when `person_years = 0`
and `count > 0`; otherwise `count * rate_scale / person_years` (so `count = 10`,
`person_years = 100`, `rate_scale = 100000` gives `10000`). -/
theorem yearly_rate_policy (rate_scale : ℚ) (rows : List StratumRow)
    (pr : StratumRow × FloatRate)
    (hmem : pr ∈ assign_yearly_rate rate_scale rows) :
    (pr.1.person_years = 0 → pr.1.count = 0 → pr.2 = FloatRate.nan) ∧
    (pr.1.person_years = 0 → 0 < pr.1.count → pr.2 = FloatRate.inf) ∧
    (pr.1.person_years ≠ 0 →
      pr.2 = FloatRate.val (pr.1.count * rate_scale / pr.1.person_years)) ∧
    (pr.1.count = 10 → pr.1.person_years = 100 → rate_scale = 100000 →
      pr.2 = FloatRate.val 10000) := by
  obtain ⟨row, _, rfl⟩ := List.mem_map.mp hmem
  refine ⟨?_, ?_, ?_, ?_⟩
  · intro hpy hc
    have hpy' : row.person_years = 0 := hpy
    have hc' : row.count = 0 := hc
    simp [yearly_rate, hpy', hc']
  · intro hpy hc
    have hpy' : row.person_years = 0 := hpy
    have hc' : row.count ≠ 0 := ne_of_gt hc
    simp [yearly_rate, hpy', hc']
  · intro hpy
    have hpy' : row.person_years ≠ 0 := hpy
    simp [yearly_rate, hpy']
  · intro hc hpy hscale
    subst hscale
    have hpy' : row.person_years = 100 := hpy
    have hc' : row.count = 10 := hc
    simp only [yearly_rate, hpy', hc']
    norm_num

/-- Witness instantiating the C3 theorem on a concrete stratum row. -/
theorem yearly_rate_policy_w :
    ((⟨"UK Biobank", "60-65", "Never smoker", "Male", 100,
        "lung_adenocarcinoma", 10⟩, FloatRate.val 10000) ∈
      assign_yearly_rate 100000
        [⟨"UK Biobank", "60-65", "Never smoker", "Male", 100,
          "lung_adenocarcinoma", 10⟩]) ∧
    (((100 : ℚ) = 0 → (10 : ℚ) = 0 → FloatRate.val 10000 = FloatRate.nan) ∧
      ((100 : ℚ) = 0 → (0 : ℚ) < 10 → FloatRate.val 10000 = FloatRate.inf) ∧
      ((100 : ℚ) ≠ 0 →
        FloatRate.val 10000 = FloatRate.val (10 * 100000 / 100)) ∧
      ((10 : ℚ) = 10 → (100 : ℚ) = 100 → (100000 : ℚ) = 100000 →
        FloatRate.val 10000 = FloatRate.val 10000)) :=
  ⟨by norm_num [assign_yearly_rate, yearly_rate],
    yearly_rate_policy 100000
      [⟨"UK Biobank", "60-65", "Never smoker", "Male", 100,
        "lung_adenocarcinoma", 10⟩]
      (⟨"UK Biobank", "60-65", "Never smoker", "Male", 100,
        "lung_adenocarcinoma", 10⟩, FloatRate.val 10000)
      (by norm_num [assign_yearly_rate, yearly_rate])⟩

/-! ### epid_analysis/data/seer.py: standardise_rates -/

/-- A crude-rates row as fed into `standardise_rates` (built at seer.py lines
84-100): columns histology, year, sex, age, count, population, rate. A float
`NaN` in the rate column is modelled as `none`. -/
structure CrudeRow where
  histology : String
  year : ℤ
  sex : String
  age : ℤ
  count : ℚ
  population : ℚ
  rate : Option ℚ
deriving DecidableEq

/-- A reference-population row (seer.py lines 199-224): columns age,
reference_population, reference_fraction; a `NaN` fraction is `none`. -/
structure RefRow where
  age : ℤ
  reference_population : ℚ
  reference_fraction : Option ℚ
deriving DecidableEq

/-- A row of `crude_rates.merge(reference_population, on="age")` after
`.drop(columns=["reference_population"])` (seer.py lines 120-121). -/
structure MergedRow where
  histology : String
  year : ℤ
  sex : String
  age : ℤ
  count : ℚ
  population : ℚ
  rate : Option ℚ
  reference_fraction : Option ℚ
deriving DecidableEq

/-- One merged row built from a crude row and a matching reference row. -/
def mergeRow (c : CrudeRow) (r : RefRow) : MergedRow :=
  ⟨c.histology, c.year, c.sex, c.age, c.count, c.population, c.rate,
    r.reference_fraction⟩

/-- Inner join on `age` (seer.py line 120): each crude row is paired with
every reference row carrying the same age. -/
def mergeOnAge (crude : List CrudeRow) (ref : List RefRow) : List MergedRow :=
  crude.flatMap (fun c =>
    (ref.filter (fun r => r.age = c.age)).map (mergeRow c))

/-- The row filter of `standardise_rates` (seer.py line 122): keep rows whose
reference_fraction and rate are both non-NaN. -/
def keepRow (m : MergedRow) : Bool :=
  m.reference_fraction.isSome && m.rate.isSome

/-- The per-row standardised-rate value assigned at seer.py line 123: rate
times reference_fraction (both are present on kept rows). -/
def stdContribution (m : MergedRow) : ℚ :=
  m.rate.getD 0 * m.reference_fraction.getD 0

/-- The groupby key of `standardise_rates` (seer.py line 124): histology and
year, plus sex when `by_sex`; the sex component is `""` when grouping without
sex. -/
def stdKey (by_sex : Bool) (m : MergedRow) : String × ℤ × String :=
  (m.histology, m.year, if by_sex then m.sex else "")

/-- An output row of `standardise_rates` (seer.py lines 124-129). -/
structure StdRow where
  histology : String
  year : ℤ
  sex : String
  standardised_rate : ℚ
  count : ℚ
  population : ℚ
  rate : ℚ
deriving DecidableEq

/-- The aggregated output row of `standardise_rates` for one groupby key `k`
(seer.py lines 124-129): sums of standardised_rate, count and population over
the kept rows of the group, with the overall rate recomputed as
`count / population * 100000` (line 129). -/
def stdAggRow (by_sex : Bool) (rows : List MergedRow)
    (k : String × ℤ × String) : StdRow :=
  let grp := rows.filter (fun m => stdKey by_sex m = k)
  { histology := k.1, year := k.2.1, sex := k.2.2,
    standardised_rate := (grp.map stdContribution).sum,
    count := (grp.map (fun m => m.count)).sum,
    population := (grp.map (fun m => m.population)).sum,
    rate := (grp.map (fun m => m.count)).sum /
      (grp.map (fun m => m.population)).sum * 100000 }

/-- Embeds `standardise_rates` (seer.py lines 113-130): merge the crude rates
with the reference population on age, drop rows with a missing weight or a
missing rate, group by histology and year (and sex when `by_sex`), sum
standardised_rate, count and population per group, and recompute the overall
rate as `count / population * 100000`. -/
def standardise_rates (crude : List CrudeRow) (ref : List RefRow)
    (by_sex : Bool) : List StdRow :=
  let rows := (mergeOnAge crude ref).filter keepRow
  ((rows.map (stdKey by_sex)).dedup).map (stdAggRow by_sex rows)

/-- The groupby key read off a crude row (same columns as `stdKey`). -/
def crudeStdKey (by_sex : Bool) (c : CrudeRow) : String × ℤ × String :=
  (c.histology, c.year, if by_sex then c.sex else "")

/-- Modelled from the spec (section 4.3): the standardised rate of stratum `k`
is the sum, over ages present in both the crude data and the reference
weights, of crude rate times reference fraction; rows lacking a weight or
lacking a crude rate are dropped before summation, not treated as zero. -/
def standardised_rate_spec (crude : List CrudeRow) (ref : List RefRow)
    (by_sex : Bool) (k : String × ℤ × String) : ℚ :=
  ((crude.filter (fun c => crudeStdKey by_sex c = k)).filterMap (fun c =>
    c.rate.bind (fun rate =>
      (ref.find? (fun r => r.age = c.age)).bind (fun rr =>
        rr.reference_fraction.map (fun f => rate * f))))).sum

/-- Modelled from the spec (section 4.3): the total count of stratum `k`,
summed over exactly the crude rows merged into the stratum (those with a
present rate and a present reference weight for their age). -/
def total_count_spec (crude : List CrudeRow) (ref : List RefRow)
    (by_sex : Bool) (k : String × ℤ × String) : ℚ :=
  ((crude.filter (fun c => crudeStdKey by_sex c = k)).filterMap (fun c =>
    c.rate.bind (fun _ =>
      (ref.find? (fun r => r.age = c.age)).bind (fun rr =>
        rr.reference_fraction.map (fun _ => c.count))))).sum

/-- Modelled from the spec (section 4.3): the total population of stratum `k`,
summed over exactly the crude rows merged into the stratum. -/
def total_population_spec (crude : List CrudeRow) (ref : List RefRow)
    (by_sex : Bool) (k : String × ℤ × String) : ℚ :=
  ((crude.filter (fun c => crudeStdKey by_sex c = k)).filterMap (fun c =>
    c.rate.bind (fun _ =>
      (ref.find? (fun r => r.age = c.age)).bind (fun rr =>
        rr.reference_fraction.map (fun _ => c.population))))).sum

lemma filter_age_nodup (a : ℤ) (ref : List RefRow)
    (href : (ref.map (fun r => r.age)).Nodup) :
    ref.filter (fun r => r.age = a) = (ref.find? (fun r => r.age = a)).toList := by
  induction ref with
  | nil => simp
  | cons r tl ih =>
      simp only [List.map_cons, List.nodup_cons] at href
      by_cases hr : r.age = a
      · have htl : tl.filter (fun r => r.age = a) = [] := by
          refine List.filter_eq_nil_iff.mpr (fun x hx => ?_)
          simp only [decide_eq_true_eq]
          intro hxa
          exact href.1 (List.mem_map.mpr ⟨x, hx, hxa.trans hr.symm⟩)
        rw [List.filter_cons_of_pos (by simpa using hr),
          List.find?_cons_of_pos _ (by simpa using hr), htl]
        simp
      · rw [List.filter_cons_of_neg (by simpa using hr),
          List.find?_cons_of_neg _ (by simpa using hr)]
        exact ih href.2

lemma grp_sum_eq (G : MergedRow → ℚ) (ref : List RefRow)
    (href : (ref.map (fun r => r.age)).Nodup)
    (by_sex : Bool) (k : String × ℤ × String) (crude : List CrudeRow) :
    ((((mergeOnAge crude ref).filter keepRow).filter
        (fun m => stdKey by_sex m = k)).map G).sum =
    ((crude.filter (fun c => crudeStdKey by_sex c = k)).filterMap (fun c =>
      c.rate.bind (fun _ =>
        (ref.find? (fun r => r.age = c.age)).bind (fun rr =>
          rr.reference_fraction.map (fun _ => G (mergeRow c rr)))))).sum := by
  induction crude with
  | nil => simp [mergeOnAge]
  | cons c tl ih =>
      simp only [mergeOnAge] at ih ⊢
      rw [List.flatMap_cons, List.filter_append, List.filter_append,
        List.map_append, List.sum_append, ih, List.filter_map, List.filter_map,
        filter_age_nodup c.age ref href]
      by_cases hk : crudeStdKey by_sex c = k
      · rw [List.filter_cons_of_pos (by simpa using hk), List.filterMap_cons]
        cases hrate : c.rate with
        | none =>
            have h0 : List.filter (keepRow ∘ mergeRow c)
                (ref.find? (fun r => r.age = c.age)).toList = [] :=
              List.filter_eq_nil_iff.mpr (fun x _ => by
                simp [Function.comp, keepRow, mergeRow, hrate])
            rw [h0]
            simp
        | some rate =>
            cases hfind : ref.find? (fun r => r.age = c.age) with
            | none => simp [hrate]
            | some rr =>
                cases hfrac : rr.reference_fraction with
                | none =>
                    have hkeep : keepRow (mergeRow c rr) = false := by
                      simp [keepRow, mergeRow, hfrac]
                    simp [hrate, hfrac, hkeep, Function.comp]
                | some f =>
                    have hkeep : keepRow (mergeRow c rr) = true := by
                      simp [keepRow, mergeRow, hrate, hfrac]
                    have hkey : stdKey by_sex (mergeRow c rr) = k := hk
                    simp [hrate, hfrac, hkeep, hkey, Function.comp]
      · rw [List.filter_cons_of_neg (by simpa using hk)]
        have h0 : List.filter ((fun m => decide (stdKey by_sex m = k)) ∘ mergeRow c)
            (List.filter (keepRow ∘ mergeRow c)
              (ref.find? (fun r => r.age = c.age)).toList) = [] :=
          List.filter_eq_nil_iff.mpr (fun x _ => by
            simp only [Function.comp_apply, decide_eq_true_eq]
            exact fun h => hk h)
        rw [h0]
        simp

/-- Claim C4: every stratum row output by `standardise_rates` carries as its
standardised_rate the sum over ages present in both the crude table and the
reference table of crude rate times reference fraction, with rows lacking a
weight or lacking a crude rate dropped before summation (as captured by the
spec-side `standardised_rate_spec`). -/
theorem standardise_rates_standardised (crude : List CrudeRow)
    (ref : List RefRow) (by_sex : Bool)
    (href : (ref.map (fun r => r.age)).Nodup)
    (row : StdRow) (hrow : row ∈ standardise_rates crude ref by_sex) :
    row.standardised_rate =
      standardised_rate_spec crude ref by_sex
        (row.histology, row.year, row.sex) := by
  simp only [standardise_rates] at hrow
  obtain ⟨k, hk, rfl⟩ := List.mem_map.mp hrow
  have hkey : ((stdAggRow by_sex ((mergeOnAge crude ref).filter keepRow) k).histology,
      (stdAggRow by_sex ((mergeOnAge crude ref).filter keepRow) k).year,
      (stdAggRow by_sex ((mergeOnAge crude ref).filter keepRow) k).sex) = k := rfl
  rw [hkey]
  show ((((mergeOnAge crude ref).filter keepRow).filter
      (fun m => stdKey by_sex m = k)).map stdContribution).sum =
    standardised_rate_spec crude ref by_sex k
  rw [grp_sum_eq stdContribution ref href by_sex k crude, standardised_rate_spec]
  congr 1
  apply List.filterMap_congr
  intro c _
  cases hr : c.rate with
  | none => simp
  | some rate =>
      cases hf : ref.find? (fun r => r.age = c.age) with
      | none => simp [hf]
      | some rr =>
          cases hfr : rr.reference_fraction with
          | none => simp [hf, hfr]
          | some f => simp [hr, hf, hfr, stdContribution, mergeRow]

/-- Witness instantiating the C4 theorem on a one-row crude table and a
one-row reference table. -/
theorem standardise_rates_standardised_w :
    (([⟨50, 10, some (1 / 2)⟩] : List RefRow).map (fun r => r.age)).Nodup ∧
    (⟨"LUAD", 2000, "Male", 1, 3, 7, 3 / 7 * 100000⟩ : StdRow) ∈
      standardise_rates [⟨"LUAD", 2000, "Male", 50, 3, 7, some 2⟩]
        [⟨50, 10, some (1 / 2)⟩] true ∧
    (⟨"LUAD", 2000, "Male", 1, 3, 7, 3 / 7 * 100000⟩ : StdRow).standardised_rate =
      standardised_rate_spec [⟨"LUAD", 2000, "Male", 50, 3, 7, some 2⟩]
        [⟨50, 10, some (1 / 2)⟩] true ("LUAD", 2000, "Male") :=
  ⟨by simp,
    by norm_num [standardise_rates, mergeOnAge, mergeRow, keepRow, stdKey,
      stdAggRow, stdContribution],
    standardise_rates_standardised
      [⟨"LUAD", 2000, "Male", 50, 3, 7, some 2⟩] [⟨50, 10, some (1 / 2)⟩] true
      (by simp) ⟨"LUAD", 2000, "Male", 1, 3, 7, 3 / 7 * 100000⟩
      (by norm_num [standardise_rates, mergeOnAge, mergeRow, keepRow, stdKey,
        stdAggRow, stdContribution])⟩

/-- Claim C5: every stratum row output by `standardise_rates` has its overall
rate recomputed as `total_count / total_population * 100000`, where the totals
are the sums of count and population over exactly the crude rows merged into
that stratum. -/
theorem standardise_rates_overall_rate (crude : List CrudeRow)
    (ref : List RefRow) (by_sex : Bool)
    (href : (ref.map (fun r => r.age)).Nodup)
    (row : StdRow) (hrow : row ∈ standardise_rates crude ref by_sex) :
    row.rate = total_count_spec crude ref by_sex (row.histology, row.year, row.sex) /
        total_population_spec crude ref by_sex (row.histology, row.year, row.sex) *
        100000 ∧
    row.count = total_count_spec crude ref by_sex (row.histology, row.year, row.sex) ∧
    row.population =
      total_population_spec crude ref by_sex (row.histology, row.year, row.sex) := by
  simp only [standardise_rates] at hrow
  obtain ⟨k, hk, rfl⟩ := List.mem_map.mp hrow
  have hkey : ((stdAggRow by_sex ((mergeOnAge crude ref).filter keepRow) k).histology,
      (stdAggRow by_sex ((mergeOnAge crude ref).filter keepRow) k).year,
      (stdAggRow by_sex ((mergeOnAge crude ref).filter keepRow) k).sex) = k := rfl
  rw [hkey]
  have hcount : ((((mergeOnAge crude ref).filter keepRow).filter
      (fun m => stdKey by_sex m = k)).map (fun m => m.count)).sum =
      total_count_spec crude ref by_sex k := by
    rw [grp_sum_eq (fun m => m.count) ref href by_sex k crude]
    rfl
  have hpop : ((((mergeOnAge crude ref).filter keepRow).filter
      (fun m => stdKey by_sex m = k)).map (fun m => m.population)).sum =
      total_population_spec crude ref by_sex k := by
    rw [grp_sum_eq (fun m => m.population) ref href by_sex k crude]
    rfl
  refine ⟨?_, ?_, ?_⟩
  · show ((((mergeOnAge crude ref).filter keepRow).filter
        (fun m => stdKey by_sex m = k)).map (fun m => m.count)).sum /
        ((((mergeOnAge crude ref).filter keepRow).filter
          (fun m => stdKey by_sex m = k)).map (fun m => m.population)).sum *
        100000 = _
    rw [hcount, hpop]
  · exact hcount
  · exact hpop

/-- Witness instantiating the C5 theorem on a one-row crude table and a
one-row reference table. -/
theorem standardise_rates_overall_rate_w :
    (([⟨60, 20, some (1 / 4)⟩] : List RefRow).map (fun r => r.age)).Nodup ∧
    ((⟨"LUSC", 2001, "Female", 5 / 4, 4, 8, 4 / 8 * 100000⟩ : StdRow) ∈
      standardise_rates [⟨"LUSC", 2001, "Female", 60, 4, 8, some 5⟩]
        [⟨60, 20, some (1 / 4)⟩] true) ∧
    ((⟨"LUSC", 2001, "Female", 5 / 4, 4, 8, 4 / 8 * 100000⟩ : StdRow).rate =
      total_count_spec [⟨"LUSC", 2001, "Female", 60, 4, 8, some 5⟩]
          [⟨60, 20, some (1 / 4)⟩] true ("LUSC", 2001, "Female") /
        total_population_spec [⟨"LUSC", 2001, "Female", 60, 4, 8, some 5⟩]
          [⟨60, 20, some (1 / 4)⟩] true ("LUSC", 2001, "Female") * 100000 ∧
      (⟨"LUSC", 2001, "Female", 5 / 4, 4, 8, 4 / 8 * 100000⟩ : StdRow).count =
        total_count_spec [⟨"LUSC", 2001, "Female", 60, 4, 8, some 5⟩]
          [⟨60, 20, some (1 / 4)⟩] true ("LUSC", 2001, "Female") ∧
      (⟨"LUSC", 2001, "Female", 5 / 4, 4, 8, 4 / 8 * 100000⟩ : StdRow).population =
        total_population_spec [⟨"LUSC", 2001, "Female", 60, 4, 8, some 5⟩]
          [⟨60, 20, some (1 / 4)⟩] true ("LUSC", 2001, "Female")) :=
  ⟨by simp,
    by norm_num [standardise_rates, mergeOnAge, mergeRow, keepRow, stdKey,
      stdAggRow, stdContribution],
    standardise_rates_overall_rate
      [⟨"LUSC", 2001, "Female", 60, 4, 8, some 5⟩] [⟨60, 20, some (1 / 4)⟩] true
      (by simp) ⟨"LUSC", 2001, "Female", 5 / 4, 4, 8, 4 / 8 * 100000⟩
      (by norm_num [standardise_rates, mergeOnAge, mergeRow, keepRow, stdKey,
        stdAggRow, stdContribution])⟩

/-- Claim C6: the output of `standardise_rates` is invariant, row for row,
under any permutation of the crude input rows: each aggregated stratum row
produced from one ordering is produced from the other. -/
theorem standardise_rates_perm_invariant (crude crude2 : List CrudeRow)
    (ref : List RefRow) (by_sex : Bool) (hperm : crude.Perm crude2)
    (row : StdRow) :
    row ∈ standardise_rates crude ref by_sex ↔
      row ∈ standardise_rates crude2 ref by_sex := by
  have hrows : ((mergeOnAge crude ref).filter keepRow).Perm
      ((mergeOnAge crude2 ref).filter keepRow) := by
    simp only [mergeOnAge]
    exact (hperm.flatMap_right _).filter _
  have hagg : ∀ k, stdAggRow by_sex ((mergeOnAge crude ref).filter keepRow) k =
      stdAggRow by_sex ((mergeOnAge crude2 ref).filter keepRow) k := by
    intro k
    have hgrp := hrows.filter (fun m => stdKey by_sex m = k)
    have hsum : ∀ f : MergedRow → ℚ,
        ((((mergeOnAge crude ref).filter keepRow).filter
            (fun m => stdKey by_sex m = k)).map f).sum =
        ((((mergeOnAge crude2 ref).filter keepRow).filter
            (fun m => stdKey by_sex m = k)).map f).sum :=
      fun f => (hgrp.map f).sum_eq
    simp only [stdAggRow]
    rw [hsum stdContribution, hsum (fun m => m.count), hsum (fun m => m.population)]
  constructor
  · intro h
    simp only [standardise_rates] at h ⊢
    obtain ⟨k, hk, rfl⟩ := List.mem_map.mp h
    refine List.mem_map.mpr ⟨k, ?_, (hagg k).symm⟩
    rw [List.mem_dedup] at hk ⊢
    exact ((hrows.map (stdKey by_sex)).mem_iff).mp hk
  · intro h
    simp only [standardise_rates] at h ⊢
    obtain ⟨k, hk, rfl⟩ := List.mem_map.mp h
    refine List.mem_map.mpr ⟨k, ?_, hagg k⟩
    rw [List.mem_dedup] at hk ⊢
    exact ((hrows.map (stdKey by_sex)).mem_iff).mpr hk

/-- Witness instantiating the C6 theorem on a two-row crude table and its
swap. -/
theorem standardise_rates_perm_invariant_w :
    ([(⟨"LUAD", 2000, "Male", 50, 1, 2, some 3⟩ : CrudeRow),
        ⟨"LUAD", 2000, "Male", 55, 4, 5, some 6⟩] : List CrudeRow).Perm
      [⟨"LUAD", 2000, "Male", 55, 4, 5, some 6⟩,
        ⟨"LUAD", 2000, "Male", 50, 1, 2, some 3⟩] ∧
    ((⟨"", 0, "", 0, 0, 0, 0⟩ : StdRow) ∈
        standardise_rates
          [⟨"LUAD", 2000, "Male", 50, 1, 2, some 3⟩,
            ⟨"LUAD", 2000, "Male", 55, 4, 5, some 6⟩]
          [⟨50, 10, some (1 / 2)⟩] true ↔
      (⟨"", 0, "", 0, 0, 0, 0⟩ : StdRow) ∈
        standardise_rates
          [⟨"LUAD", 2000, "Male", 55, 4, 5, some 6⟩,
            ⟨"LUAD", 2000, "Male", 50, 1, 2, some 3⟩]
          [⟨50, 10, some (1 / 2)⟩] true) :=
  ⟨List.Perm.swap _ _ _,
    standardise_rates_perm_invariant _ _ [⟨50, 10, some (1 / 2)⟩] true
      (List.Perm.swap _ _ _) ⟨"", 0, "", 0, 0, 0, 0⟩⟩

/-! ### epid_analysis/data/seer.py: WHO reference population -/

/-- A parsed row of the WHO standard population table (age label as read,
count with thousands separators already parsed). -/
structure WhoRow where
  age : String
  count : ℚ
deriving DecidableEq

/-- An output row of `load_who_reference_population`. -/
structure WhoOutRow where
  age : String
  reference_population : ℚ
  reference_fraction : ℚ
deriving DecidableEq

/-- Embeds the column arithmetic of `load_who_reference_population` (seer.py
lines 199-224): `fraction = count / count.sum()`, with `count` renamed to
`reference_population` and `fraction` to `reference_fraction`. The textual
relabelling of the age column (leading-zero stripping, dropping the word
years, rewriting the top age group) is string normalisation of the parsed
file and is kept abstract here. -/
def load_who_reference_population (rows : List WhoRow) : List WhoOutRow :=
  rows.map (fun r =>
    { age := r.age, reference_population := r.count,
      reference_fraction := r.count / (rows.map (fun s => s.count)).sum })

lemma sum_map_div (l : List ℚ) (d : ℚ) :
    (l.map (fun x => x / d)).sum = l.sum / d := by
  induction l with
  | nil => simp
  | cons x tl ih => simp [ih, add_div]

/-- Claim C8: for every population table with positive total count, the
reference_fraction column of `load_who_reference_population` sums to 1 over
all ages, within 1e-9 (it is exactly 1 in exact arithmetic). -/
theorem who_reference_fraction_sum (rows : List WhoRow)
    (htotal : 0 < (rows.map (fun r => r.count)).sum) :
    |((load_who_reference_population rows).map
        (fun r => r.reference_fraction)).sum - 1| ≤ 1 / 1000000000 := by
  have hsum : ((load_who_reference_population rows).map
      (fun r => r.reference_fraction)).sum =
      ((rows.map (fun r => r.count)).map
        (fun x => x / (rows.map (fun s => s.count)).sum)).sum := by
    rw [load_who_reference_population, List.map_map, List.map_map]
    rfl
  rw [hsum, sum_map_div, div_self (ne_of_gt htotal)]
  norm_num

/-- Witness instantiating the C8 theorem on a one-row table. -/
theorem who_reference_fraction_sum_w :
    0 < (([⟨"0-4", 5⟩] : List WhoRow).map (fun r => r.count)).sum ∧
    |((load_who_reference_population [⟨"0-4", 5⟩]).map
        (fun r => r.reference_fraction)).sum - 1| ≤ 1 / 1000000000 :=
  ⟨by norm_num, who_reference_fraction_sum [⟨"0-4", 5⟩] (by norm_num)⟩

/-! ### epid_analysis/data/seer.py: load_incidence assertions -/

/-- Embeds the assertion prefix of `load_incidence` (seer.py lines 142-149):
`true` exactly when none of its four `assert` statements fires. The body after
the assertions reads CSV files and is file I/O outside the model; only the
precondition checks decide the claim. -/
def load_incidence_preconditions (registry : ℤ) (recode : String)
    (age_groups : Option (List (ℤ × ℤ))) : Bool :=
  decide (registry = 8 ∨ registry = 12 ∨ registry = 17) &&
  decide (recode = "AYA" ∨ recode = "rare_cancers") &&
  (match age_groups with
   | none => true
   | some gs => gs.all (fun ab => decide (ab.1 < ab.2))) &&
  (match age_groups with
   | none => true
   | some gs => gs.all (fun ab =>
      decide ((0 ≤ ab.1 ∧ ab.2 ≤ 85) ∨ (ab.1 ≤ 85 ∧ 100 < ab.2))))

/-- Claim C9 counterexample: registry 8, recode "AYA" and age_groups
[(90, 95)] satisfy every precondition the claim lists (valid registry, valid
recode, strictly increasing pairs), yet an assertion of `load_incidence`
still fires: the claim omits the bounds check of seer.py lines 147-149. -/
theorem load_incidence_preconditions_cex :
    ((8 : ℤ) = 8 ∨ (8 : ℤ) = 12 ∨ (8 : ℤ) = 17) ∧
    ("AYA" = "AYA" ∨ "AYA" = "rare_cancers") ∧
    (∀ ab ∈ [((90 : ℤ), (95 : ℤ))], ab.1 < ab.2) ∧
    load_incidence_preconditions 8 "AYA" (some [(90, 95)]) = false := by
  decide

/-- Claim C9 (amended): `load_incidence` passes its assertions iff the
registry is 8, 12 or 17, the recode is "AYA" or "rare_cancers", and every
age-group pair is strictly increasing and satisfies the bounds check
`(0 ≤ a ∧ b ≤ 85) ∨ (a ≤ 85 ∧ 100 < b)`; whenever any of these fails, an
assertion fires and no result is produced. -/
theorem load_incidence_preconditions_iff (registry : ℤ) (recode : String)
    (age_groups : Option (List (ℤ × ℤ))) :
    load_incidence_preconditions registry recode age_groups = true ↔
      ((registry = 8 ∨ registry = 12 ∨ registry = 17) ∧
       (recode = "AYA" ∨ recode = "rare_cancers") ∧
       (∀ gs, age_groups = some gs → ∀ ab ∈ gs,
         ab.1 < ab.2 ∧ ((0 ≤ ab.1 ∧ ab.2 ≤ 85) ∨ (ab.1 ≤ 85 ∧ 100 < ab.2)))) := by
  cases age_groups with
  | none => simp [load_incidence_preconditions]
  | some gs =>
      simp only [load_incidence_preconditions, Bool.and_eq_true,
        decide_eq_true_eq, List.all_eq_true, Option.some.injEq, forall_eq']
      constructor
      · rintro ⟨⟨⟨h1, h2⟩, h3⟩, h4⟩
        exact ⟨h1, h2, fun ab hab => ⟨h3 ab hab, h4 ab hab⟩⟩
      · rintro ⟨h1, h2, h34⟩
        exact ⟨⟨⟨h1, h2⟩, fun ab hab => (h34 ab hab).1⟩,
          fun ab hab => (h34 ab hab).2⟩

/-! ### epid_analysis/cox_model.py: collinearity-analysis JSON round-trip -/

/-- A JSON value, restricted to the fragment produced by
`record_collinearity_analysis`: numbers and string-keyed objects. Python
floats are modelled as rationals. -/
inductive Json where
  | num (q : ℚ)
  | obj (fields : List (String × Json))

/-- Encoding of a Python `dict[str, float]` by `json.dump`. -/
def encodeFloatMap (m : List (String × ℚ)) : Json :=
  Json.obj (m.map (fun kv => (kv.1, Json.num kv.2)))

/-- Encoding of a Python `dict[str, dict[str, float]]` by `json.dump`. -/
def encodeVifMap (m : List (String × List (String × ℚ))) : Json :=
  Json.obj (m.map (fun kv => (kv.1, encodeFloatMap kv.2)))

/-- Embeds `record_collinearity_analysis` (cox_model.py lines 145-161): the
collinearity-analysis file receives the object
with members vif and condition. The VIF and condition values themselves come
from external numerical routines; the file content is what is modelled. -/
def record_collinearity_analysis (vif : List (String × List (String × ℚ)))
    (condition : List (String × ℚ)) : Json :=
  Json.obj [("vif", encodeVifMap vif), ("condition", encodeFloatMap condition)]

/-- Decoding by `json.load` of an object whose values are numbers. -/
def decodeFloatFields : List (String × Json) → Option (List (String × ℚ))
  | [] => some []
  | (k, Json.num q) :: rest =>
      (decodeFloatFields rest).map (fun tl => (k, q) :: tl)
  | _ => none

/-- Decoding by `json.load` of a `dict[str, float]` value. -/
def decodeFloatMap : Json → Option (List (String × ℚ))
  | Json.obj fields => decodeFloatFields fields
  | _ => none

/-- Decoding by `json.load` of the fields of a `dict[str, dict[str, float]]`. -/
def decodeVifFields :
    List (String × Json) → Option (List (String × List (String × ℚ)))
  | [] => some []
  | (k, v) :: rest =>
      match decodeFloatMap v with
      | some m => (decodeVifFields rest).map (fun tl => (k, m) :: tl)
      | none => none

/-- Decoding by `json.load` of a `dict[str, dict[str, float]]` value. -/
def decodeVifMap : Json → Option (List (String × List (String × ℚ)))
  | Json.obj fields => decodeVifFields fields
  | _ => none

/-- Embeds `read_vif` (cox_model.py lines 173-179): load the
collinearity-analysis file and return its vif member. -/
def read_vif (file : Json) : Option (List (String × List (String × ℚ))) :=
  match file with
  | Json.obj fields => (fields.lookup "vif").bind decodeVifMap
  | _ => none

/-- Embeds `read_condition` (cox_model.py lines 164-170): load the
collinearity-analysis file and return its condition member. -/
def read_condition (file : Json) : Option (List (String × ℚ)) :=
  match file with
  | Json.obj fields => (fields.lookup "condition").bind decodeFloatMap
  | _ => none

lemma decodeFloatFields_encode (m : List (String × ℚ)) :
    decodeFloatFields (m.map (fun kv => (kv.1, Json.num kv.2))) = some m := by
  induction m with
  | nil => rfl
  | cons kv tl ih =>
      cases kv
      simp [decodeFloatFields, ih]

lemma decodeFloatMap_encode (m : List (String × ℚ)) :
    decodeFloatMap (encodeFloatMap m) = some m := by
  simp [decodeFloatMap, encodeFloatMap, decodeFloatFields_encode]

lemma decodeVifFields_encode (m : List (String × List (String × ℚ))) :
    decodeVifFields (m.map (fun kv => (kv.1, encodeFloatMap kv.2))) = some m := by
  induction m with
  | nil => rfl
  | cons kv tl ih =>
      cases kv
      simp [decodeVifFields, decodeFloatMap_encode, ih]

/-- Claim C7: writing the collinearity-analysis JSON file with
`record_collinearity_analysis` and then reading it back with `read_vif` and
`read_condition` returns mappings identical to those written. -/
theorem collinearity_roundtrip (vif : List (String × List (String × ℚ)))
    (condition : List (String × ℚ)) :
    read_vif (record_collinearity_analysis vif condition) = some vif ∧
    read_condition (record_collinearity_analysis vif condition) =
      some condition := by
  have hne : ("vif" == "condition") = false := by decide
  constructor
  · simp [read_vif, record_collinearity_analysis, List.lookup, encodeVifMap,
      decodeVifMap, decodeVifFields_encode]
  · simp [read_condition, record_collinearity_analysis, List.lookup, hne,
      encodeFloatMap, decodeFloatMap, decodeFloatFields_encode]

/-! ### epid_analysis/data/seer.py: load_rates_by_registry_recode -/

/-- An incidence row as returned by `load_incidence` (seer.py lines 133-196):
columns histology, year, age, sex, count. -/
structure SeerIncRow where
  histology : String
  year : ℤ
  age : ℤ
  sex : String
  count : ℚ
deriving DecidableEq

/-- A population row as returned by `load_registry_population_data` (seer.py
lines 244-335): columns year, age, sex, population. -/
structure SeerPopRow where
  year : ℤ
  age : ℤ
  sex : String
  population : ℚ
deriving DecidableEq

/-- A row of the incidence/population merge on year, age and sex (seer.py
lines 85-91). -/
structure IncPopRow where
  histology : String
  year : ℤ
  age : ℤ
  sex : String
  count : ℚ
  population : ℚ
deriving DecidableEq

/-- Inner join of incidence and population data on year, age and sex
(seer.py lines 86-91). -/
def mergeIncPop (inc : List SeerIncRow) (pop : List SeerPopRow) :
    List IncPopRow :=
  inc.flatMap (fun i =>
    (pop.filter (fun p => p.year = i.year ∧ p.age = i.age ∧ p.sex = i.sex)).map
      (fun p => ⟨i.histology, i.year, i.age, i.sex, i.count, p.population⟩))

/-- The crude groupby key (seer.py lines 92-96): year, sex (when `by_sex`,
else `""`), age, histology. -/
def crudeKey (by_sex : Bool) (m : IncPopRow) : ℤ × String × ℤ × String :=
  (m.year, if by_sex then m.sex else "", m.age, m.histology)

/-- The groupby-sum step of the crude-rates pipeline (seer.py lines 92-97):
one row per key with summed count and population; the rate column is filled
afterwards by `assign_crude_rate`. -/
def crude_counts (inc : List SeerIncRow) (pop : List SeerPopRow)
    (by_sex : Bool) : List CrudeRow :=
  let merged := mergeIncPop inc pop
  ((merged.map (crudeKey by_sex)).dedup).map (fun k =>
    { histology := k.2.2.2, year := k.1, sex := k.2.1, age := k.2.2.1,
      count := ((merged.filter (fun m => crudeKey by_sex m = k)).map
        (fun m => m.count)).sum,
      population := ((merged.filter (fun m => crudeKey by_sex m = k)).map
        (fun m => m.population)).sum,
      rate := none })

/-- The rate assignment of the crude pipeline (seer.py line 98):
`rate = count / population * rates_per`. In float arithmetic this is `NaN`
(modelled `none`) exactly when count and population are both zero; a nonzero
count over a zero population is an infinite float rate, which the rational
model represents by the total division `count / 0 = 0`. -/
def assign_crude_rate (rates_per : ℚ) (c : CrudeRow) : CrudeRow :=
  { c with rate := if c.population = 0 ∧ c.count = 0 then none
      else some (c.count / c.population * rates_per) }

/-- Embeds the crude branch of `load_rates_by_registry_recode` (seer.py lines
84-100, returned as-is when `age_standardised` is false): merge, group, sum,
assign rate. -/
def crude_rates (inc : List SeerIncRow) (pop : List SeerPopRow)
    (by_sex : Bool) (rates_per : ℚ) : List CrudeRow :=
  (crude_counts inc pop by_sex).map (assign_crude_rate rates_per)

/-- Embeds the age-standardised branch of `load_rates_by_registry_recode`
(seer.py lines 101-110): the crude rates fed through `standardise_rates`. -/
def load_rates_by_registry_recode_std (inc : List SeerIncRow)
    (pop : List SeerPopRow) (ref : List RefRow) (by_sex : Bool)
    (rates_per : ℚ) : List StdRow :=
  standardise_rates (crude_rates inc pop by_sex rates_per) ref by_sex

/-- Rate reassignment lifted to a merged row; proof device. -/
def massign (p : ℚ) (m : MergedRow) : MergedRow :=
  { m with rate := if m.population = 0 ∧ m.count = 0 then none
      else some (m.count / m.population * p) }

/-- The `rates_per`-independent part of the `keepRow` filter on rows whose
rate was assigned by `assign_crude_rate`; proof device. -/
def keepBase (m : MergedRow) : Bool :=
  m.reference_fraction.isSome && !(decide (m.population = 0 ∧ m.count = 0))

/-- The `rates_per`-independent merged-and-filtered base of the standardised
pipeline; proof device. -/
def stdBase (inc : List SeerIncRow) (pop : List SeerPopRow)
    (ref : List RefRow) (by_sex : Bool) : List MergedRow :=
  (mergeOnAge (crude_counts inc pop by_sex) ref).filter keepBase

lemma mergeOnAge_map_assign (p : ℚ) (ref : List RefRow) (l : List CrudeRow) :
    mergeOnAge (l.map (assign_crude_rate p)) ref =
      (mergeOnAge l ref).map (massign p) := by
  induction l with
  | nil => rfl
  | cons c tl ih =>
      simp only [mergeOnAge, List.map_cons, List.flatMap_cons, List.map_append]
        at ih ⊢
      rw [ih]
      congr 1
      rw [List.map_map]
      rfl

lemma filter_keep_massign (p : ℚ) (x : List MergedRow) :
    (x.map (massign p)).filter keepRow = (x.filter keepBase).map (massign p) := by
  rw [List.filter_map]
  congr 1
  apply List.filter_congr
  intro m _
  by_cases h : m.population = 0 ∧ m.count = 0
  · simp [Function.comp, keepRow, keepBase, massign, h]
  · simp [Function.comp, keepRow, keepBase, massign, h]

lemma rows_eq_massign (inc : List SeerIncRow) (pop : List SeerPopRow)
    (ref : List RefRow) (by_sex : Bool) (p : ℚ) :
    (mergeOnAge (crude_rates inc pop by_sex p) ref).filter keepRow =
      (stdBase inc pop ref by_sex).map (massign p) := by
  rw [crude_rates, mergeOnAge_map_assign, filter_keep_massign, stdBase]

lemma filtered_sum_massign (p : ℚ) (by_sex : Bool) (k : String × ℤ × String)
    (base : List MergedRow) (G : MergedRow → ℚ)
    (hG : ∀ m, G (massign p m) = G m) :
    (((base.map (massign p)).filter (fun m => stdKey by_sex m = k)).map G).sum =
    ((base.filter (fun m => stdKey by_sex m = k)).map G).sum := by
  rw [List.filter_map, List.map_map]
  have h1 : base.filter ((fun m => decide (stdKey by_sex m = k)) ∘ massign p) =
      base.filter (fun m => decide (stdKey by_sex m = k)) :=
    List.filter_congr (fun m _ => rfl)
  rw [h1]
  exact congrArg List.sum (List.map_congr_left (fun m _ => hG m))

lemma rate_col_eq (inc : List SeerIncRow) (pop : List SeerPopRow)
    (ref : List RefRow) (by_sex : Bool) (p : ℚ) :
    (load_rates_by_registry_recode_std inc pop ref by_sex p).map
        (fun r => r.rate) =
    (((stdBase inc pop ref by_sex).map (stdKey by_sex)).dedup).map (fun k =>
      (((stdBase inc pop ref by_sex).filter
          (fun m => stdKey by_sex m = k)).map (fun m => m.count)).sum /
        (((stdBase inc pop ref by_sex).filter
          (fun m => stdKey by_sex m = k)).map (fun m => m.population)).sum *
        100000) := by
  simp only [load_rates_by_registry_recode_std, standardise_rates]
  rw [rows_eq_massign inc pop ref by_sex p, List.map_map, List.map_map]
  have hkeys : (stdBase inc pop ref by_sex).map (stdKey by_sex ∘ massign p) =
      (stdBase inc pop ref by_sex).map (stdKey by_sex) :=
    List.map_congr_left (fun m _ => rfl)
  rw [hkeys]
  apply List.map_congr_left
  intro k _
  show ((((stdBase inc pop ref by_sex).map (massign p)).filter
      (fun m => stdKey by_sex m = k)).map (fun m => m.count)).sum /
    ((((stdBase inc pop ref by_sex).map (massign p)).filter
      (fun m => stdKey by_sex m = k)).map (fun m => m.population)).sum *
    100000 = _
  rw [filtered_sum_massign p by_sex k _ (fun m => m.count) (fun m => rfl),
    filtered_sum_massign p by_sex k _ (fun m => m.population) (fun m => rfl)]

lemma standardise_rates_rate_shape (crude : List CrudeRow) (ref : List RefRow)
    (by_sex : Bool) (row : StdRow)
    (h : row ∈ standardise_rates crude ref by_sex) :
    row.rate = row.count / row.population * 100000 := by
  simp only [standardise_rates] at h
  obtain ⟨k, _, rfl⟩ := List.mem_map.mp h
  rfl

/-- Claim C10: under `age_standardised=True`, the rate column returned by
`load_rates_by_registry_recode` is identical for any two values of
`rates_per` and is computed with the fixed scale 100000; `rates_per` changes
the returned rate in the crude (`age_standardised=False`) branch, as the
concrete final conjunct exhibits. -/
theorem load_rates_rate_col_independent (inc : List SeerIncRow)
    (pop : List SeerPopRow) (ref : List RefRow) (by_sex : Bool) (p1 p2 : ℚ) :
    (load_rates_by_registry_recode_std inc pop ref by_sex p1).map
        (fun r => r.rate) =
      (load_rates_by_registry_recode_std inc pop ref by_sex p2).map
        (fun r => r.rate) ∧
    (∀ row ∈ load_rates_by_registry_recode_std inc pop ref by_sex p1,
      row.rate = row.count / row.population * 100000) ∧
    (crude_rates [⟨"LUAD", 2000, 50, "Male", 3⟩] [⟨2000, 50, "Male", 6⟩]
        true 100000).map (fun r => r.rate) ≠
      (crude_rates [⟨"LUAD", 2000, 50, "Male", 3⟩] [⟨2000, 50, "Male", 6⟩]
        true 1).map (fun r => r.rate) := by
  refine ⟨?_, ?_, ?_⟩
  · rw [rate_col_eq inc pop ref by_sex p1, rate_col_eq inc pop ref by_sex p2]
  · intro row h
    exact standardise_rates_rate_shape _ _ _ row h
  · norm_num [crude_rates, crude_counts, mergeIncPop, crudeKey,
      assign_crude_rate]

/-- Witness instantiating the C10 theorem on a concrete one-row input. -/
theorem load_rates_rate_col_independent_w :
    (load_rates_by_registry_recode_std [⟨"LUAD", 2000, 50, "Male", 3⟩]
        [⟨2000, 50, "Male", 6⟩] [⟨50, 10, some (1 / 2)⟩] true 100000).map
        (fun r => r.rate) =
      (load_rates_by_registry_recode_std [⟨"LUAD", 2000, 50, "Male", 3⟩]
        [⟨2000, 50, "Male", 6⟩] [⟨50, 10, some (1 / 2)⟩] true 1).map
        (fun r => r.rate) ∧
    (∀ row ∈ load_rates_by_registry_recode_std [⟨"LUAD", 2000, 50, "Male", 3⟩]
        [⟨2000, 50, "Male", 6⟩] [⟨50, 10, some (1 / 2)⟩] true 100000,
      row.rate = row.count / row.population * 100000) ∧
    (crude_rates [⟨"LUAD", 2000, 50, "Male", 3⟩] [⟨2000, 50, "Male", 6⟩]
        true 100000).map (fun r => r.rate) ≠
      (crude_rates [⟨"LUAD", 2000, 50, "Male", 3⟩] [⟨2000, 50, "Male", 6⟩]
        true 1).map (fun r => r.rate) :=
  load_rates_rate_col_independent [⟨"LUAD", 2000, 50, "Male", 3⟩]
    [⟨2000, 50, "Male", 6⟩] [⟨50, 10, some (1 / 2)⟩] true 100000 1

end EpidAnalysis
